import Mathlib

/-!
# zcloudpass-app: verification of the vault security engine

Shallow embedding of the client-side security core of the zcloudpass web
client and proofs of its specified properties.

* Credential generator: transcribed from the source component
  `src/components/Landing.tsx` (functions `generateRandomPassword` and
  `generateRandomPassphrase`, constants `WORD_LIST`, `SEPARATORS`,
  `CAPITALIZE_OPTIONS`).
* Vault envelope codec: the module `lib/crypto` is imported by the source
  components but its file is not part of the source tree; it is modelled
  from the specification (see the doc comments below).

Randomness is made explicit.  A call to `crypto.getRandomValues` on a
`Uint32Array` of size `length` is modelled by a function `secure : Nat → Nat`
giving the 32-bit value at each position.  Each call to `Math.random()` in
the source consumes one element of an explicit stream `r : List Nat`;
`Math.floor(Math.random() * n)`, a uniform draw from `[0, n)`, is modelled
by reducing the consumed element modulo `n`.
-/

namespace ZCloudPass

/-- `const uppercase = "ABCDEFGHIJKLMNOPQRSTUVWXYZ"` from `Landing.tsx`. -/
def uppercaseChars : List Char := "ABCDEFGHIJKLMNOPQRSTUVWXYZ".data

/-- `const lowercase = "abcdefghijklmnopqrstuvwxyz"` from `Landing.tsx`. -/
def lowercaseChars : List Char := "abcdefghijklmnopqrstuvwxyz".data

/-- `const numbers = "0123456789"` from `Landing.tsx`. -/
def numberChars : List Char := "0123456789".data

/-- `const symbols = "!@#$%^&*()_+-=[]{}|;:,.<>?"` from `Landing.tsx`. -/
def symbolChars : List Char := "!@#$%^&*()_+-=[]\x7b\x7d|;:,.<>?".data

/-- `const ambiguous = "il1Lo0O"` from `Landing.tsx`. -/
def ambiguousChars : List Char := "il1Lo0O".data

/-- Password-mode generator settings (the component state consumed by
`generateRandomPassword`): slider `length` plus the five switches. -/
structure PwPolicy where
  length : Nat
  includeUppercase : Bool
  includeLowercase : Bool
  includeNumbers : Bool
  includeSymbols : Bool
  excludeAmbiguous : Bool

/-- One draw of `Math.floor(Math.random() * n)`: consume the head of the
stream and reduce it modulo `n` (`0` when the stream is exhausted or `n = 0`,
matching `Math.floor(x * 0) = 0`). -/
def randNat (r : List Nat) (n : Nat) : Nat × List Nat :=
  match r with
  | [] => (0, [])
  | x :: xs => (if n = 0 then 0 else x % n, xs)

/-- The union of the enabled categories: the four
`if (include...) charset += ...` statements of `generateRandomPassword`. -/
def rawCharset (p : PwPolicy) : List Char :=
  (if p.includeUppercase then uppercaseChars else []) ++
  (if p.includeLowercase then lowercaseChars else []) ++
  (if p.includeNumbers then numberChars else []) ++
  (if p.includeSymbols then symbolChars else [])

/-- The `if (excludeAmbiguous)` filter of `generateRandomPassword`. -/
def filteredCharset (p : PwPolicy) : List Char :=
  if p.excludeAmbiguous then (rawCharset p).filter (fun c => !(ambiguousChars.contains c))
  else rawCharset p

/-- The final `charset` of `generateRandomPassword`, after the
`if (charset.length === 0) charset = lowercase; // Fallback` branch. -/
def buildCharset (p : PwPolicy) : List Char :=
  if (filteredCharset p).length = 0 then lowercaseChars else filteredCharset p

/-- The `ensureChars` array of `generateRandomPassword`: the enabled
categories, unfiltered, in source order. -/
def ensureSets (p : PwPolicy) : List (List Char) :=
  (if p.includeUppercase then [uppercaseChars] else []) ++
  (if p.includeLowercase then [lowercaseChars] else []) ++
  (if p.includeNumbers then [numberChars] else []) ++
  (if p.includeSymbols then [symbolChars] else [])

/-- One iteration of the `ensureChars.forEach` loop: if no character of
`set` occurs in the result, draw a character of `set` and a position with
`Math.random` and splice it in via
`result.substring(0, pos) + randomChar + result.substring(pos + 1)`. -/
def injectStep (res : List Char × List Nat) (set : List Char) : List Char × List Nat :=
  if res.1.any (fun c => set.contains c) then res
  else
    let (ci, r1) := randNat res.2 set.length
    let (pos, r2) := randNat r1 res.1.length
    (res.1.take pos ++ [set.getD ci ' '] ++ res.1.drop (pos + 1), r2)

/-- The main draw loop of `generateRandomPassword`:
`result += charset[array[i] % charset.length]` for `i < length`, where
`array` is the `Uint32Array` filled by `crypto.getRandomValues`. -/
def baseDraw (p : PwPolicy) (secure : Nat → Nat) : List Char :=
  (List.range p.length).map
    (fun i => (buildCharset p).getD (secure i % (buildCharset p).length) ' ')

/-- `generateRandomPassword` from `Landing.tsx`: the secure base draw
followed by the `ensureChars.forEach` coverage-injection loop (which uses
`Math.random`, i.e. the insecure stream `r`).  Returns the password and the
unconsumed part of the insecure stream. -/
def generateRandomPassword (p : PwPolicy) (secure : Nat → Nat) (r : List Nat) :
    List Char × List Nat :=
  (ensureSets p).foldl injectStep (baseDraw p secure, r)

/-- `WORD_LIST` from `Landing.tsx`, in source order, duplicates kept. -/
def WORD_LIST : List String :=
  ["correct", "horse", "battery", "staple", "dragon", "monkey", "puzzle",
   "secret", "castle", "thunder", "rainbow", "galaxy", "planet", "ocean",
   "mountain", "forest", "river", "sunset", "coffee", "wizard", "knight",
   "phoenix", "crystal", "shadow", "silver", "golden", "diamond", "emerald",
   "tiger", "eagle", "wolf", "falcon", "anchor", "compass", "voyage",
   "island", "treasure", "captain", "pirate", "mermaid", "unicorn",
   "griffin", "centaur", "pegasus", "kraken", "atlantis", "olympus",
   "valhalla", "nebula", "cosmos", "meteor", "comet", "aurora", "eclipse",
   "solstice", "equinox", "quantum", "neutron", "photon", "electron",
   "proton", "particle", "energy", "velocity", "harmony", "melody",
   "rhythm", "symphony", "chorus", "sonata", "concerto", "prelude",
   "crimson", "scarlet", "azure", "violet", "amber", "jade", "ivory",
   "ebony", "thunder", "lightning", "blizzard", "tempest", "monsoon",
   "typhoon", "cyclone", "tornado", "glacier", "volcano", "desert",
   "tundra", "prairie", "canyon", "valley", "summit", "orchid", "lotus",
   "jasmine", "tulip", "rose", "lily", "daisy", "violet", "maple",
   "willow", "cedar", "pine", "birch", "oak", "elm", "ash"]

/-- The `CAPITALIZE_OPTIONS` of `Landing.tsx`. -/
inductive CapMode where
  | none
  | first
  | all
  | random
deriving DecidableEq

/-- Passphrase-mode generator settings consumed by
`generateRandomPassphrase`: word-count slider, separator, capitalization
mode, trailing-number switch. -/
structure PpPolicy where
  wordCount : Nat
  separator : String
  capitalize : CapMode
  includeNumber : Bool

/-- The `while (selectedWords.length < wordCount)` loop of
`generateRandomPassphrase`: draw an index with `Math.random`, skip it if
already used, otherwise record it and push `WORD_LIST[index]`.  The source
loop has no bound on its iteration count; `fuel` bounds the number of
iterations we unfold, with `none` meaning the loop has not finished within
`fuel` iterations. -/
def selectWords (fuel wordCount : Nat) (selected : List String) (used : List Nat)
    (r : List Nat) : Option (List String × List Nat) :=
  match fuel with
  | 0 => Option.none
  | fuel + 1 =>
    if wordCount ≤ selected.length then some (selected, r)
    else
      let (index, r1) := randNat r WORD_LIST.length
      if used.contains index then
        selectWords fuel wordCount selected used r1
      else
        selectWords fuel wordCount (selected ++ [WORD_LIST.getD index ""]) (index :: used) r1

/-- `word.charAt(0).toUpperCase() + word.slice(1)` (identity on `""`). -/
def capitalizeWord (w : String) : String :=
  match w.data with
  | [] => ""
  | c :: cs => String.mk (c.toUpper :: cs)

/-- The `selectedWords.map` capitalization step of
`generateRandomPassphrase`, threading the `Math.random` stream (consumed
only by the `random` mode's per-word coin flip `Math.random() > 0.5`). -/
def capitalizeWords (mode : CapMode) (idx : Nat) (ws : List String) (r : List Nat) :
    List String × List Nat :=
  match ws with
  | [] => ([], r)
  | w :: rest =>
    let step : String × List Nat :=
      match mode with
      | CapMode.all => (capitalizeWord w, r)
      | CapMode.first => (if idx = 0 then capitalizeWord w else w, r)
      | CapMode.random =>
        let (x, r1) := randNat r 2
        (if x = 1 then capitalizeWord w else w, r1)
      | CapMode.none => (w, r)
    let (rest2, r2) := capitalizeWords mode (idx + 1) rest step.2
    (step.1 :: rest2, r2)

/-- `generateRandomPassphrase` from `Landing.tsx`: distinct-index word
selection, capitalization, `join(separator)`, and when `includeNumber` is
set the trailing `separator + Math.floor(Math.random() * 9999)`.  Every
random draw consumes the insecure `Math.random` stream `r`; no secure
source is involved anywhere in this function. -/
def generateRandomPassphrase (p : PpPolicy) (fuel : Nat) (r : List Nat) :
    Option (String × List Nat) :=
  match selectWords fuel p.wordCount [] [] r with
  | Option.none => Option.none
  | some (ws, r1) =>
    let cws := (capitalizeWords p.capitalize 0 ws r1).1
    let r2 := (capitalizeWords p.capitalize 0 ws r1).2
    let joined := String.intercalate p.separator cws
    if p.includeNumber then
      some (joined ++ p.separator ++ toString (randNat r2 9999).1, (randNat r2 9999).2)
    else
      some (joined, r2)

/-- `VaultEntry` from `lib/crypto` as used by the components: required `id`
and `name`, optional `username`, `password`, `url`, `notes` (absence is
`Option.none`, never a null placeholder). -/
structure VaultEntry where
  id : String
  name : String
  username : Option String
  password : Option String
  url : Option String
  notes : Option String
deriving DecidableEq

/-- `Vault` from `lib/crypto`: an ordered collection of entries. -/
structure Vault where
  entries : List VaultEntry
deriving DecidableEq

/-- Errors of the envelope codec's taxonomy that the round-trip claims
touch. -/
inductive CryptoError where
  | MalformedEnvelope
  | AuthenticationFailed
  | InternalInconsistency
deriving DecidableEq

/-- Canonical encoding of a string into the plaintext token list:
character count followed by the code points. -/
def encodeString (s : String) : List Nat :=
  s.data.length :: s.data.map Char.toNat

/-- Inverse of `encodeString`, consuming a prefix of the token list. -/
def decodeString (l : List Nat) : Option (String × List Nat) :=
  match l with
  | [] => Option.none
  | n :: rest =>
    if n ≤ rest.length then
      some (String.mk ((rest.take n).map Char.ofNat), rest.drop n)
    else Option.none

/-- Canonical encoding of an optional field: presence flag then payload. -/
def encodeOpt (s : Option String) : List Nat :=
  match s with
  | Option.none => [0]
  | some s => 1 :: encodeString s

/-- Inverse of `encodeOpt`, consuming a prefix of the token list. -/
def decodeOpt (l : List Nat) : Option (Option String × List Nat) :=
  match l with
  | 0 :: rest => some (Option.none, rest)
  | 1 :: rest =>
    match decodeString rest with
    | some (s, rest2) => some (some s, rest2)
    | Option.none => Option.none
  | _ => Option.none

/-- Canonical encoding of one vault entry, fields in declaration order. -/
def encodeEntry (e : VaultEntry) : List Nat :=
  encodeString e.id ++ encodeString e.name ++ encodeOpt e.username ++
  encodeOpt e.password ++ encodeOpt e.url ++ encodeOpt e.notes

/-- Inverse of `encodeEntry`, consuming a prefix of the token list. -/
def decodeEntry (l : List Nat) : Option (VaultEntry × List Nat) :=
  match decodeString l with
  | Option.none => Option.none
  | some (id, l1) =>
    match decodeString l1 with
    | Option.none => Option.none
    | some (name, l2) =>
      match decodeOpt l2 with
      | Option.none => Option.none
      | some (username, l3) =>
        match decodeOpt l3 with
        | Option.none => Option.none
        | some (password, l4) =>
          match decodeOpt l4 with
          | Option.none => Option.none
          | some (url, l5) =>
            match decodeOpt l5 with
            | Option.none => Option.none
            | some (notes, l6) =>
              some (⟨id, name, username, password, url, notes⟩, l6)

/-- Canonical serialization of a vault: entry count, then the entries in
insertion order. -/
def encodeVault (v : Vault) : List Nat :=
  v.entries.length :: (v.entries.map encodeEntry).flatten

/-- Decode `n` consecutive entries from the token list. -/
def decodeEntryList (n : Nat) (l : List Nat) : Option (List VaultEntry × List Nat) :=
  match n with
  | 0 => some ([], l)
  | n + 1 =>
    match decodeEntry l with
    | Option.none => Option.none
    | some (e, l1) =>
      match decodeEntryList n l1 with
      | Option.none => Option.none
      | some (es, l2) => some (e :: es, l2)

/-- Inverse of `encodeVault`. -/
def decodeVault (l : List Nat) : Option (Vault × List Nat) :=
  match l with
  | [] => Option.none
  | n :: rest =>
    match decodeEntryList n rest with
    | Option.none => Option.none
    | some (es, l1) => some (⟨es⟩, l1)

/-- Modelled from the spec: the envelope format version (§4.2 step 6);
`lib/crypto` is not in the source tree. -/
def envelopeVersion : Nat := 1

/-- Modelled from the spec: the versioned KDF cost parameter embedded in the
envelope (§4.2 step 2); `lib/crypto` is not in the source tree. -/
def kdfIterations : Nat := 100000

/-- Modelled from the spec: the deliberately slow key-derivation function of
§4.2 step 2 — a deterministic function of the master password, the salt and
the iteration cost, iterated `iterations` times; `lib/crypto` is not in the
source tree, so only determinism in `(password, salt, iterations)` is
modelled, which is all the round-trip property consumes. -/
def deriveKey (password : String) (salt iterations : Nat) : Nat :=
  Nat.iterate (fun a => (a * 1099511628211 + 1) % 2 ^ 256)
    iterations
    (password.data.foldl (fun a c => a * 131 + c.toNat) salt % 2 ^ 256)

/-- Modelled from the spec: the keystream cipher of §4.2 step 5 — each
plaintext token is shifted by a pad determined by the key, the nonce and its
position; `lib/crypto` is not in the source tree. -/
def encBytes (pad i : Nat) (pt : List Nat) : List Nat :=
  match pt with
  | [] => []
  | b :: bs => (b + (pad + i)) :: encBytes pad (i + 1) bs

/-- Inverse keystream application for decryption. -/
def decBytes (pad i : Nat) (ct : List Nat) : List Nat :=
  match ct with
  | [] => []
  | c :: cs => (c - (pad + i)) :: decBytes pad (i + 1) cs

/-- Modelled from the spec: the authentication tag of §4.2 step 5, a
deterministic integrity checksum of key, nonce and ciphertext; `lib/crypto`
is not in the source tree. -/
def authTag (key nonce : Nat) (ct : List Nat) : Nat :=
  ct.foldl (fun a b => a * 31 + b + 1) (key + nonce)

/-- Modelled from the spec: `encryptVault` of §4.2 — derive the key from
password and salt, serialize the vault, encrypt, and assemble the envelope
(version, KDF cost, salt, nonce, ciphertext length, ciphertext, tag) into
one opaque token sequence; `lib/crypto` is not in the source tree.  The
fresh random `salt` and `nonce` of steps 1 and 4 are explicit arguments. -/
def encryptVault (v : Vault) (password : String) (salt nonce : Nat) : List Nat :=
  let key := deriveKey password salt kdfIterations
  let ct := encBytes (key + nonce) 0 (encodeVault v)
  envelopeVersion :: kdfIterations :: salt :: nonce :: ct.length ::
    (ct ++ [authTag key nonce ct])

/-- Modelled from the spec: `decryptVault` of §4.2 — parse the envelope
(`MalformedEnvelope` on unrecognized structure or version), re-derive the
key, verify the tag (`AuthenticationFailed` on mismatch), then decrypt and
deserialize (`InternalInconsistency` on malformed plaintext after
successful authentication); `lib/crypto` is not in the source tree. -/
def decryptVault (env : List Nat) (password : String) : Except CryptoError Vault :=
  match env with
  | version :: iters :: salt :: nonce :: ctlen :: rest =>
    if version ≠ envelopeVersion then Except.error CryptoError.MalformedEnvelope
    else if ctlen + 1 = rest.length then
      let ct := rest.take ctlen
      let tag := (rest.drop ctlen).headD 0
      let key := deriveKey password salt iters
      if authTag key nonce ct ≠ tag then Except.error CryptoError.AuthenticationFailed
      else
        match decodeVault (decBytes (key + nonce) 0 ct) with
        | some (v, []) => Except.ok v
        | _ => Except.error CryptoError.InternalInconsistency
    else Except.error CryptoError.MalformedEnvelope
  | _ => Except.error CryptoError.MalformedEnvelope

/-! ## Serialization round-trip lemmas -/

theorem decodeString_encodeString (s : String) (rest : List Nat) :
    decodeString (encodeString s ++ rest) = some (s, rest) := by
  have hlen : (s.data.map Char.toNat).length = s.data.length := List.length_map _ _
  have htake : (s.data.map Char.toNat ++ rest).take s.data.length = s.data.map Char.toNat := by
    rw [← hlen, List.take_left]
  have hdrop : (s.data.map Char.toNat ++ rest).drop s.data.length = rest := by
    rw [← hlen, List.drop_left]
  have hmap : (s.data.map Char.toNat).map Char.ofNat = s.data := by
    rw [List.map_map]
    have : (Char.ofNat ∘ Char.toNat) = id := by
      funext c
      exact Char.ofNat_toNat c
    rw [this, List.map_id]
  have hle : s.data.length ≤ (s.data.map Char.toNat ++ rest).length := by
    rw [List.length_append, hlen]
    exact Nat.le_add_right _ _
  simp only [encodeString, List.cons_append, decodeString, if_pos hle, htake, hdrop, hmap]

theorem decodeOpt_encodeOpt (s : Option String) (rest : List Nat) :
    decodeOpt (encodeOpt s ++ rest) = some (s, rest) := by
  cases s with
  | none => rfl
  | some s =>
    simp only [encodeOpt, List.cons_append, decodeOpt, decodeString_encodeString]

theorem decodeEntry_encodeEntry (e : VaultEntry) (rest : List Nat) :
    decodeEntry (encodeEntry e ++ rest) = some (e, rest) := by
  cases e
  simp only [encodeEntry, List.append_assoc, decodeEntry,
    decodeString_encodeString, decodeOpt_encodeOpt]

theorem decodeEntryList_encode (es : List VaultEntry) (rest : List Nat) :
    decodeEntryList es.length ((es.map encodeEntry).flatten ++ rest) = some (es, rest) := by
  induction es with
  | nil => rfl
  | cons e es ih =>
    simp only [List.map_cons, List.flatten_cons, List.length_cons, List.append_assoc,
      decodeEntryList, decodeEntry_encodeEntry, ih]

theorem decodeVault_encodeVault (v : Vault) :
    decodeVault (encodeVault v) = some (v, []) := by
  cases v with
  | mk es =>
    have h := decodeEntryList_encode es []
    rw [List.append_nil] at h
    simp only [encodeVault, decodeVault, h]

/-! ## Cipher round-trip lemmas -/

theorem decBytes_encBytes (pad : Nat) (pt : List Nat) :
    ∀ i, decBytes pad i (encBytes pad i pt) = pt := by
  induction pt with
  | nil => intro i; rfl
  | cons b bs ih =>
    intro i
    simp only [encBytes, decBytes, Nat.add_sub_cancel, ih (i + 1)]

theorem encBytes_length (pad : Nat) (pt : List Nat) :
    ∀ i, (encBytes pad i pt).length = pt.length := by
  induction pt with
  | nil => intro i; rfl
  | cons b bs ih =>
    intro i
    simp only [encBytes, List.length_cons, ih (i + 1)]

/-- C1.  For every vault `V` and master password `P`,
`decryptVault (encryptVault V P salt nonce) P` returns exactly `V`: entry
content, entry order and optional-field presence are all preserved, for any
salt and nonce drawn during encryption. -/
theorem C1_vault_round_trip (v : Vault) (password : String) (salt nonce : Nat) :
    decryptVault (encryptVault v password salt nonce) password = Except.ok v := by
  have hkey : deriveKey password salt kdfIterations = deriveKey password salt kdfIterations := rfl
  set key := deriveKey password salt kdfIterations with hk
  set ct := encBytes (key + nonce) 0 (encodeVault v) with hct
  have hver : ¬ envelopeVersion ≠ envelopeVersion := fun h => h rfl
  have hlen : ct.length + 1 = (ct ++ [authTag key nonce ct]).length := by
    rw [List.length_append]
    rfl
  have htake : (ct ++ [authTag key nonce ct]).take ct.length = ct := List.take_left _ _
  have hdrop : (ct ++ [authTag key nonce ct]).drop ct.length = [authTag key nonce ct] :=
    List.drop_left _ _
  show decryptVault
      (envelopeVersion :: kdfIterations :: salt :: nonce :: ct.length ::
        (ct ++ [authTag key nonce ct])) password = Except.ok v
  simp only [decryptVault, if_neg hver, if_pos hlen, htake, hdrop, List.headD, ← hk]
  have htag : ¬ authTag key nonce ct ≠ authTag key nonce ct := fun h => h rfl
  simp only [if_neg htag, hct, decBytes_encBytes, decodeVault_encodeVault]

/-! ## Generator helper lemmas -/

theorem randNat_lt (r : List Nat) (n : Nat) (h : n ≠ 0) : (randNat r n).1 < n := by
  cases r with
  | nil => exact Nat.pos_of_ne_zero h
  | cons x xs =>
    simp only [randNat, if_neg h]
    exact Nat.mod_lt _ (Nat.pos_of_ne_zero h)

theorem WORD_LIST_length : WORD_LIST.length = 112 := rfl

theorem getD_mod_mem (l : List Char) (h : l ≠ []) (n : Nat) :
    l.getD (n % l.length) ' ' ∈ l := by
  have hlt : n % l.length < l.length := Nat.mod_lt _ (List.length_pos.mpr h)
  rw [List.getD_eq_getElem l ' ' hlt]
  exact List.getElem_mem hlt

theorem buildCharset_ne_nil (p : PwPolicy) : buildCharset p ≠ [] := by
  unfold buildCharset
  split
  · decide
  · rename_i h
    intro hnil
    rw [hnil] at h
    exact h rfl

theorem length_baseDraw (p : PwPolicy) (secure : Nat → Nat) :
    (baseDraw p secure).length = p.length := by
  simp [baseDraw]

theorem baseDraw_mem (p : PwPolicy) (secure : Nat → Nat) (c : Char)
    (h : c ∈ baseDraw p secure) : c ∈ buildCharset p := by
  simp only [baseDraw, List.mem_map] at h
  obtain ⟨i, _, rfl⟩ := h
  exact getD_mod_mem _ (buildCharset_ne_nil p) _

theorem injectStep_length (res : List Char × List Nat) (set : List Char)
    (h : res.1.length ≠ 0) : (injectStep res set).1.length = res.1.length := by
  unfold injectStep
  split
  · rfl
  · have hpos : (randNat (randNat res.2 set.length).2 res.1.length).1 < res.1.length :=
      randNat_lt _ _ h
    simp only [List.length_append, List.length_take, List.length_cons, List.length_nil,
      List.length_drop]
    omega

theorem foldl_injectStep_length (sets : List (List Char)) :
    ∀ (res : List Char × List Nat), res.1.length ≠ 0 →
      ((sets.foldl injectStep res).1.length = res.1.length) := by
  induction sets with
  | nil => intro res _; rfl
  | cons s ss ih =>
    intro res h
    rw [List.foldl_cons]
    have h1 := injectStep_length res s h
    rw [ih (injectStep res s) (by rw [h1]; exact h), h1]

theorem foldl_injectStep_covered (sets : List (List Char)) :
    ∀ (base : List Char) (r : List Nat),
      (∀ set ∈ sets, base.any (fun c => set.contains c)) →
      sets.foldl injectStep (base, r) = (base, r) := by
  induction sets with
  | nil => intro base r _; rfl
  | cons s ss ih =>
    intro base r h
    rw [List.foldl_cons]
    have hs : injectStep (base, r) s = (base, r) := by
      unfold injectStep
      rw [if_pos (h s (List.mem_cons_self s ss))]
    rw [hs]
    exact ih base r (fun set hset => h set (List.mem_cons_of_mem s hset))

theorem capitalizeWords_none (ws : List String) : ∀ (idx : Nat) (r : List Nat),
    capitalizeWords CapMode.none idx ws r = (ws, r) := by
  induction ws with
  | nil => intro idx r; rfl
  | cons w t ih =>
    intro idx r
    simp only [capitalizeWords, ih (idx + 1) r]

theorem capitalizeWords_all (ws : List String) : ∀ (idx : Nat) (r : List Nat),
    capitalizeWords CapMode.all idx ws r = (ws.map capitalizeWord, r) := by
  induction ws with
  | nil => intro idx r; rfl
  | cons w t ih =>
    intro idx r
    simp only [capitalizeWords, ih (idx + 1) r, List.map_cons]

theorem capitalizeWords_first_pos (ws : List String) : ∀ (idx : Nat) (r : List Nat),
    idx ≠ 0 → capitalizeWords CapMode.first idx ws r = (ws, r) := by
  induction ws with
  | nil => intro idx r _; rfl
  | cons w t ih =>
    intro idx r h
    simp only [capitalizeWords, if_neg h, ih (idx + 1) r (Nat.succ_ne_zero idx)]

theorem capitalizeWords_first_zero (w : String) (t : List String) (r : List Nat) :
    capitalizeWords CapMode.first 0 (w :: t) r = (capitalizeWord w :: t, r) := by
  simp [capitalizeWords, capitalizeWords_first_pos t 1 r (Nat.one_ne_zero)]

theorem nodup_bounded_length (l : List Nat) (h : l.Nodup) (hb : ∀ i ∈ l, i < 112) :
    l.length ≤ 112 := by
  have h1 : l.toFinset.card = l.length := List.toFinset_card_of_nodup h
  have h2 : l.toFinset ⊆ Finset.range 112 := by
    intro x hx
    exact Finset.mem_range.mpr (hb x (List.mem_toFinset.mp hx))
  have h3 := Finset.card_le_card h2
  rw [h1, Finset.card_range] at h3
  exact h3

theorem selectWords_stuck (wc : Nat) (hwc : 112 < wc) : ∀ (fuel : Nat)
    (sel : List String) (used : List Nat) (r : List Nat),
    used.Nodup → (∀ i ∈ used, i < 112) → sel.length ≤ used.length →
    selectWords fuel wc sel used r = Option.none := by
  intro fuel
  induction fuel with
  | zero => intro sel used r _ _ _; rfl
  | succ fuel ih =>
    intro sel used r hn hb hl
    have hno : ¬ wc ≤ sel.length := by
      have := nodup_bounded_length used hn hb
      omega
    simp only [selectWords, if_neg hno]
    have hidx : (randNat r WORD_LIST.length).1 < 112 := by
      have := randNat_lt r WORD_LIST.length (by rw [WORD_LIST_length]; exact (by omega))
      rwa [WORD_LIST_length] at this
    split
    · exact ih sel used _ hn hb hl
    · rename_i hc
      refine ih _ _ _ ?_ ?_ ?_
      · exact List.Nodup.cons (fun hmem => hc (List.elem_iff.mpr hmem)) hn
      · intro i hi
        rcases List.mem_cons.mp hi with rfl | hi
        · exact hidx
        · exact hb i hi
      · simp only [List.length_append, List.length_cons, List.length_nil]
        omega

theorem selectWords_length (fuel wc : Nat) : ∀ (sel ws : List String) (used r rest : List Nat),
    sel.length ≤ wc → selectWords fuel wc sel used r = some (ws, rest) →
    ws.length = wc := by
  induction fuel with
  | zero =>
    intro sel ws used r rest _ h
    exact absurd h (by simp [selectWords])
  | succ fuel ih =>
    intro sel ws used r rest hle h
    rw [selectWords] at h
    by_cases hstop : wc ≤ sel.length
    · rw [if_pos hstop] at h
      obtain ⟨rfl, rfl⟩ : sel = ws ∧ r = rest := by
        constructor <;> [exact congrArg Prod.fst (Option.some.inj h);
          exact congrArg Prod.snd (Option.some.inj h)]
      omega
    · rw [if_neg hstop] at h
      split at h
      split at h
      · exact ih sel ws used _ rest hle h
      · refine ih _ ws _ _ rest ?_ h
        simp only [List.length_append, List.length_cons, List.length_nil]
        omega

theorem selectWords_range (k : Nat) : ∀ (sel : List String) (used : List Nat) (a : Nat),
    a + k ≤ 112 → (∀ i ∈ used, i < a) →
    ∃ out, selectWords (k + 1) (sel.length + k) sel used (List.range' a k) = some out := by
  induction k with
  | zero =>
    intro sel used a _ _
    exact ⟨(sel, List.range' a 0), by simp [selectWords]⟩
  | succ k ih =>
    intro sel used a hle hlt
    have hno : ¬ sel.length + (k + 1) ≤ sel.length := by omega
    have ha : a < 112 := by omega
    have hmod : a % WORD_LIST.length = a := by
      rw [WORD_LIST_length]
      exact Nat.mod_eq_of_lt ha
    have hcontains : used.contains a = false := by
      by_contra h
      have hmem : a ∈ used := by simpa using h
      exact absurd (hlt a hmem) (Nat.lt_irrefl a)
    have hstep : List.range' a (k + 1) = a :: List.range' (a + 1) k := List.range'_succ a k 1
    rw [hstep]
    simp only [selectWords, if_neg hno, randNat, WORD_LIST_length]
    rw [if_neg (by omega : ¬ (112 = 0))]
    rw [show a % 112 = a from by rwa [WORD_LIST_length] at hmod]
    rw [hcontains]
    simp only [Bool.false_eq_true, if_false]
    have heq : sel.length + (k + 1) = (sel ++ [WORD_LIST.getD a ""]).length + k := by
      simp only [List.length_append, List.length_cons, List.length_nil]
      omega
    rw [heq]
    exact ih (sel ++ [WORD_LIST.getD a ""]) (a :: used) (a + 1) (by omega)
      (by
        intro i hi
        rcases List.mem_cons.mp hi with rfl | hi
        · exact Nat.lt_succ_self i
        · exact Nat.lt_succ_of_lt (hlt i hi))

theorem mem_rawCharset_of (p : PwPolicy) (c : Char)
    (h : (p.includeUppercase = true ∧ c ∈ uppercaseChars) ∨
      (p.includeLowercase = true ∧ c ∈ lowercaseChars) ∨
      (p.includeNumbers = true ∧ c ∈ numberChars) ∨
      (p.includeSymbols = true ∧ c ∈ symbolChars)) :
    c ∈ rawCharset p := by
  simp only [rawCharset, List.mem_append]
  rcases h with ⟨hf, hc⟩ | ⟨hf, hc⟩ | ⟨hf, hc⟩ | ⟨hf, hc⟩ <;> rw [hf] <;> simp [hc]

theorem mem_filteredCharset (p : PwPolicy) (c : Char) (hc : c ∈ rawCharset p)
    (hamb : c ∉ ambiguousChars) : c ∈ filteredCharset p := by
  unfold filteredCharset
  split
  · exact List.mem_filter.mpr ⟨hc, by simp [hamb]⟩
  · exact hc

/-! ## C2: all categories disabled -/

/-- C2 counterexample.  With all four category flags disabled the source
does not fail: the `// Fallback` branch silently substitutes the lowercase
charset and a password is produced, contradicting the claimed
`InvalidPolicy` failure. -/
theorem C2_counterexample :
    buildCharset ⟨4, false, false, false, false, false⟩ = lowercaseChars ∧
    (generateRandomPassword ⟨4, false, false, false, false, false⟩ (fun _ => 0) []).1 =
      "aaaa".data := by
  exact ⟨rfl, by decide⟩

/-- C2 (amended).  For every policy with all four category flags disabled,
`generateRandomPassword` silently substitutes the lowercase charset (the
source's `// Fallback` branch) and returns a password of the requested
length drawn entirely from it; no `InvalidPolicy` error is raised. -/
theorem C2_silent_fallback (p : PwPolicy)
    (h1 : p.includeUppercase = false) (h2 : p.includeLowercase = false)
    (h3 : p.includeNumbers = false) (h4 : p.includeSymbols = false) :
    buildCharset p = lowercaseChars ∧
    ∀ (secure : Nat → Nat) (r : List Nat),
      (generateRandomPassword p secure r).1.length = p.length ∧
      ∀ c ∈ (generateRandomPassword p secure r).1, c ∈ lowercaseChars := by
  have hraw : rawCharset p = [] := by simp [rawCharset, h1, h2, h3, h4]
  have hfilt : filteredCharset p = [] := by
    unfold filteredCharset
    rw [hraw]
    split <;> rfl
  have hbc : buildCharset p = lowercaseChars := by
    unfold buildCharset
    rw [hfilt]
    rfl
  have hens : ensureSets p = [] := by simp [ensureSets, h1, h2, h3, h4]
  refine ⟨hbc, ?_⟩
  intro secure r
  have hgen : generateRandomPassword p secure r = (baseDraw p secure, r) := by
    unfold generateRandomPassword
    rw [hens, List.foldl_nil]
  constructor
  · rw [hgen]
    exact length_baseDraw p secure
  · intro c hc
    rw [hgen] at hc
    have hm := baseDraw_mem p secure c hc
    rwa [hbc] at hm

theorem C2_silent_fallback_witness :
    buildCharset ⟨4, false, false, false, false, false⟩ = lowercaseChars :=
  (C2_silent_fallback ⟨4, false, false, false, false, false⟩ rfl rfl rfl rfl).1

/-! ## C5: ambiguous-character exclusion -/

/-- C5 counterexample.  With `excludeAmbiguous` set (uppercase and lowercase
enabled), a run whose base draw is all-lowercase makes the coverage
injection draw from the unfiltered uppercase set: it places `'L'`, an
ambiguous character, into the result. -/
theorem C5_counterexample :
    (⟨8, true, true, false, false, true⟩ : PwPolicy).excludeAmbiguous = true ∧
    'L' ∈ (generateRandomPassword ⟨8, true, true, false, false, true⟩ (fun _ => 26) [11, 0]).1 ∧
    'L' ∈ ambiguousChars := by
  decide

/-- C5 (amended).  For every policy with `excludeAmbiguous` set and at least
one category enabled, no character of the secure base draw is ambiguous
(the charset is filtered); the coverage-injection step, however, draws its
replacement characters from the unfiltered category sets and can place an
ambiguous character (see the counterexample). -/
theorem C5_base_ambiguous_free (p : PwPolicy) (secure : Nat → Nat)
    (hx : p.excludeAmbiguous = true)
    (hen : p.includeUppercase = true ∨ p.includeLowercase = true ∨
      p.includeNumbers = true ∨ p.includeSymbols = true) :
    ∀ c ∈ baseDraw p secure, c ∉ ambiguousChars := by
  intro c hc
  have hmem := baseDraw_mem p secure c hc
  have hne : filteredCharset p ≠ [] := by
    rcases hen with h | h | h | h
    · exact List.ne_nil_of_mem
        (mem_filteredCharset p 'A' (mem_rawCharset_of p 'A' (Or.inl ⟨h, by decide⟩)) (by decide))
    · exact List.ne_nil_of_mem
        (mem_filteredCharset p 'a'
          (mem_rawCharset_of p 'a' (Or.inr (Or.inl ⟨h, by decide⟩))) (by decide))
    · exact List.ne_nil_of_mem
        (mem_filteredCharset p '2'
          (mem_rawCharset_of p '2' (Or.inr (Or.inr (Or.inl ⟨h, by decide⟩)))) (by decide))
    · exact List.ne_nil_of_mem
        (mem_filteredCharset p '@'
          (mem_rawCharset_of p '@' (Or.inr (Or.inr (Or.inr ⟨h, by decide⟩)))) (by decide))
  have hbc : buildCharset p = filteredCharset p := by
    unfold buildCharset
    exact if_neg (fun h0 => hne (List.length_eq_zero.mp h0))
  rw [hbc] at hmem
  unfold filteredCharset at hmem
  rw [hx] at hmem
  have h2 : c ∈ rawCharset p ∧ c ∉ ambiguousChars := by simpa using hmem
  exact h2.2

theorem C5_base_ambiguous_free_witness : 'c' ∉ ambiguousChars :=
  C5_base_ambiguous_free ⟨8, true, true, false, false, true⟩ (fun _ => 26) rfl
    (Or.inl rfl) 'c' (by decide)

/-! ## C6: category coverage -/

/-- C6.  A concrete run of `generateRandomPassword` with the policy of the
claim (length 16, all four categories enabled): the base draw is all
lowercase, the injected uppercase character is then overwritten by the
injected digit, and the final 16-character password contains no uppercase
character at all — the coverage guarantee fails. -/
theorem C6_coverage_violation_run :
    (generateRandomPassword ⟨16, true, true, true, true, false⟩ (fun _ => 26)
        [0, 0, 5, 0, 1, 1]).1 = "5@aaaaaaaaaaaaaa".data ∧
    (∀ c ∈ "5@aaaaaaaaaaaaaa".data, c ∉ uppercaseChars) ∧
    "5@aaaaaaaaaaaaaa".data.length = 16 := by
  decide

/-! ## C7: exact result length -/

theorem generateRandomPassword_length (p : PwPolicy) (secure : Nat → Nat) (r : List Nat)
    (h : 1 ≤ p.length) : (generateRandomPassword p secure r).1.length = p.length := by
  unfold generateRandomPassword
  have hb : ((baseDraw p secure, r) : List Char × List Nat).1.length ≠ 0 := by
    simp only [length_baseDraw]
    omega
  rw [foldl_injectStep_length (ensureSets p) (baseDraw p secure, r) hb]
  exact length_baseDraw p secure

/-- C7.  For every password policy with a positive requested length (the
documented policy space is 8–64), the generated password's length equals
the requested length exactly: the base draw produces `length` characters
and each coverage injection replaces one character in place. -/
theorem C7_password_length (p : PwPolicy) (secure : Nat → Nat) (r : List Nat)
    (h : 1 ≤ p.length) : (generateRandomPassword p secure r).1.length = p.length :=
  generateRandomPassword_length p secure r h

theorem C7_password_length_witness :
    (generateRandomPassword ⟨16, true, true, true, true, false⟩ (fun _ => 0) []).1.length = 16 :=
  C7_password_length ⟨16, true, true, true, true, false⟩ (fun _ => 0) [] (by decide)

/-! ## C3: randomness sources -/

/-- C3 counterexample.  With the policy and the secure source held fixed,
two different `Math.random` streams yield two different passphrases: the
output does not depend only on the secure source and the policy (passphrase
generation draws nothing from the secure source at all). -/
theorem C3_counterexample :
    generateRandomPassphrase ⟨2, "-", CapMode.none, false⟩ 3 [0, 1] =
      some ("correct-horse", []) ∧
    generateRandomPassphrase ⟨2, "-", CapMode.none, false⟩ 3 [2, 3] =
      some ("battery-staple", []) ∧
    ("correct-horse" : String) ≠ "battery-staple" := by
  decide

/-- C3 (amended).  Only the base character draw of password generation uses
the secure source: when the base draw already covers every enabled
category, the password is independent of the `Math.random` stream; but the
coverage-injection characters and positions, and every draw of passphrase
generation (word indices, capitalization flips, trailing number), consume
the statistically-seeded `Math.random` stream, so with policy and secure
source fixed the output still varies with that insecure stream. -/
theorem C3_randomness_sources :
    (∀ (p : PwPolicy) (secure : Nat → Nat) (r r2 : List Nat),
        (∀ set ∈ ensureSets p, (baseDraw p secure).any (fun c => set.contains c)) →
        (generateRandomPassword p secure r).1 = baseDraw p secure ∧
        (generateRandomPassword p secure r2).1 = baseDraw p secure) ∧
    (∃ (q : PwPolicy) (secure : Nat → Nat) (r r2 : List Nat),
        (generateRandomPassword q secure r).1 ≠ (generateRandomPassword q secure r2).1) ∧
    (∃ (p : PpPolicy) (fuel : Nat) (r r2 : List Nat),
        generateRandomPassphrase p fuel r ≠ generateRandomPassphrase p fuel r2) := by
  refine ⟨?_, ?_, ?_⟩
  · intro p secure r r2 hcov
    constructor
    · unfold generateRandomPassword
      rw [foldl_injectStep_covered (ensureSets p) (baseDraw p secure) r hcov]
    · unfold generateRandomPassword
      rw [foldl_injectStep_covered (ensureSets p) (baseDraw p secure) r2 hcov]
  · exact ⟨⟨2, true, true, false, false, false⟩, fun _ => 26, [0, 0], [1, 1], by decide⟩
  · exact ⟨⟨2, "-", CapMode.none, false⟩, 3, [0, 1], [2, 3], by decide⟩

theorem C3_randomness_sources_witness :
    (generateRandomPassword ⟨2, true, false, false, false, false⟩ (fun _ => 0) [5]).1 =
      baseDraw ⟨2, true, false, false, false, false⟩ (fun _ => 0) :=
  (C3_randomness_sources.1 ⟨2, true, false, false, false, false⟩ (fun _ => 0) [5] []
    (by decide)).1

/-! ## C4: distinct words -/

/-- C4.  A concrete run of the word-selection loop with word count 2 and
index draws 9 and 80: the indices are distinct, but `WORD_LIST` contains
`"thunder"` at both positions, so the passphrase repeats a word — the
claimed pairwise distinctness fails on the source's duplicated word list. -/
theorem C4_duplicate_word_run :
    selectWords 3 2 [] [] [9, 80] = some (["thunder", "thunder"], []) ∧
    generateRandomPassphrase ⟨2, "-", CapMode.none, false⟩ 3 [9, 80] =
      some ("thunder-thunder", []) ∧
    ¬ (["thunder", "thunder"] : List String).Nodup ∧
    ¬ WORD_LIST.Nodup := by
  decide

/-! ## C8: passphrase structure -/

/-- C8.  Whenever the word-selection loop returns words `ws`, the passphrase
is exactly those words — capitalized per the policy variant — joined by the
configured separator, and when `includeNumber` is set it ends with the
separator followed by a number in the fixed range 0–9998; the `none`
variant leaves all words unchanged, `first` capitalizes only the first
word, and `all` capitalizes every word. -/
theorem C8_passphrase_structure (p : PpPolicy) (fuel : Nat) (r r1 : List Nat)
    (ws : List String)
    (h : selectWords fuel p.wordCount [] [] r = some (ws, r1)) :
    (∃ n : Nat, n ≤ 9998 ∧
      (generateRandomPassphrase p fuel r).map Prod.fst =
        some (String.intercalate p.separator (capitalizeWords p.capitalize 0 ws r1).1 ++
          (if p.includeNumber then p.separator ++ toString n else ""))) ∧
    (∀ (ws2 : List String) (r2 : List Nat),
      capitalizeWords CapMode.none 0 ws2 r2 = (ws2, r2)) ∧
    (∀ (ws2 : List String) (r2 : List Nat),
      capitalizeWords CapMode.all 0 ws2 r2 = (ws2.map capitalizeWord, r2)) ∧
    (∀ (w : String) (t : List String) (r2 : List Nat),
      capitalizeWords CapMode.first 0 (w :: t) r2 = (capitalizeWord w :: t, r2)) := by
  refine ⟨?_, fun ws2 r2 => capitalizeWords_none ws2 0 r2,
    fun ws2 r2 => capitalizeWords_all ws2 0 r2,
    fun w t r2 => capitalizeWords_first_zero w t r2⟩
  unfold generateRandomPassphrase
  rw [h]
  cases hn : p.includeNumber
  · refine ⟨0, by omega, ?_⟩
    simp [hn]
  · refine ⟨(randNat (capitalizeWords p.capitalize 0 ws r1).2 9999).1, ?_, ?_⟩
    · have hlt := randNat_lt (capitalizeWords p.capitalize 0 ws r1).2 9999 (by omega)
      omega
    · simp [hn, String.append_assoc]

theorem C8_passphrase_structure_witness :
    ∃ n : Nat, n ≤ 9998 ∧
      (generateRandomPassphrase ⟨2, "-", CapMode.first, true⟩ 3 [0, 1, 7]).map Prod.fst =
        some (String.intercalate "-"
            (capitalizeWords CapMode.first 0 ["correct", "horse"] [7]).1 ++
          ("-" ++ toString n)) := by
  have h := (C8_passphrase_structure ⟨2, "-", CapMode.first, true⟩ 3 [0, 1, 7] [7]
    ["correct", "horse"] (by decide)).1
  simpa using h

/-! ## C9: policy bounds -/

/-- C9 counterexample.  A length of 65 (above the documented 8–64 bound) is
accepted by `generateRandomPassword` and produces a 65-character password,
and a word count of 9 (above the documented 3–8 bound) is accepted by
`generateRandomPassphrase` and produces a passphrase: no `InvalidPolicy`
rejection happens before randomness is drawn. -/
theorem C9_counterexample :
    (generateRandomPassword ⟨65, true, false, false, false, false⟩ (fun _ => 0) []).1.length
      = 65 ∧
    (generateRandomPassphrase ⟨9, "-", CapMode.none, false⟩ 10
        [0, 1, 2, 3, 4, 5, 6, 7, 8]).isSome = true := by
  decide

/-- C9 (amended).  Neither generator validates its policy bounds:
out-of-range values are accepted, never rejected and never clamped — every
policy whose positive length lies outside 8–64 yields a password of
exactly that length, and every word count outside 3–8 (up to the 112-entry
word list, beyond which the selection loop cannot finish) yields a
passphrase of exactly that many words; no `InvalidPolicy` error exists in
the code, the documented bounds being enforced only by the UI sliders. -/
theorem C9_no_bounds_validation :
    (∀ p : PwPolicy, p.length < 8 ∨ 64 < p.length → 1 ≤ p.length →
      ∀ (secure : Nat → Nat) (r : List Nat),
        (generateRandomPassword p secure r).1.length = p.length) ∧
    (∀ wc : Nat, wc < 3 ∨ 8 < wc → wc ≤ 112 →
      ∃ (fuel : Nat) (r : List Nat) (ws : List String) (rest : List Nat),
        selectWords fuel wc [] [] r = some (ws, rest) ∧ ws.length = wc ∧
        generateRandomPassphrase ⟨wc, "-", CapMode.none, false⟩ fuel r =
          some (String.intercalate "-" ws, rest)) := by
  constructor
  · intro p _ hpos secure r
    exact generateRandomPassword_length p secure r hpos
  · intro wc _ h112
    obtain ⟨out, hout⟩ := selectWords_range wc [] [] 0 (by omega)
      (by intro i hi; cases hi)
    obtain ⟨ws, r1⟩ := out
    rw [show (([] : List String).length + wc) = wc from by simp] at hout
    refine ⟨wc + 1, List.range' 0 wc, ws, r1, hout,
      selectWords_length (wc + 1) wc [] ws [] (List.range' 0 wc) r1 (by simp) hout, ?_⟩
    unfold generateRandomPassphrase
    rw [hout]
    simp [capitalizeWords_none]

theorem C9_no_bounds_validation_witness :
    (generateRandomPassword ⟨65, true, true, true, true, false⟩ (fun _ => 0) []).1.length
        = 65 ∧
    (generateRandomPassword ⟨5, true, false, false, false, false⟩ (fun _ => 0) []).1.length
        = 5 ∧
    (∃ (fuel : Nat) (r : List Nat) (ws : List String) (rest : List Nat),
      selectWords fuel 9 [] [] r = some (ws, rest) ∧ ws.length = 9 ∧
      generateRandomPassphrase ⟨9, "-", CapMode.none, false⟩ fuel r =
        some (String.intercalate "-" ws, rest)) ∧
    (∃ (fuel : Nat) (r : List Nat) (ws : List String) (rest : List Nat),
      selectWords fuel 2 [] [] r = some (ws, rest) ∧ ws.length = 2 ∧
      generateRandomPassphrase ⟨2, "-", CapMode.none, false⟩ fuel r =
        some (String.intercalate "-" ws, rest)) :=
  ⟨C9_no_bounds_validation.1 ⟨65, true, true, true, true, false⟩ (Or.inr (by decide))
      (by decide) (fun _ => 0) [],
   C9_no_bounds_validation.1 ⟨5, true, false, false, false, false⟩ (Or.inl (by decide))
      (by decide) (fun _ => 0) [],
   C9_no_bounds_validation.2 9 (Or.inr (by decide)) (by decide),
   C9_no_bounds_validation.2 2 (Or.inl (by decide)) (by decide)⟩

/-! ## C10: termination of the word-selection loop -/

/-- C10.  The word list has 112 entries; for every word count above 112 the
distinct-index selection loop can never finish (for all fuel bounds and all
random streams it is still running), and the generator performs no bound
check that would prevent such a call — while for every word count up to 112
the loop can finish.  -/
theorem C10_passphrase_termination :
    WORD_LIST.length = 112 ∧
    (∀ wc : Nat, 112 < wc → ∀ (fuel : Nat) (r : List Nat),
      selectWords fuel wc [] [] r = Option.none) ∧
    (∀ p : PpPolicy, 112 < p.wordCount → ∀ (fuel : Nat) (r : List Nat),
      generateRandomPassphrase p fuel r = Option.none) ∧
    (∀ wc : Nat, wc ≤ 112 →
      ∃ (fuel : Nat) (r : List Nat) (out : List String × List Nat),
        selectWords fuel wc [] [] r = some out) := by
  have hstuck : ∀ wc : Nat, 112 < wc → ∀ (fuel : Nat) (r : List Nat),
      selectWords fuel wc [] [] r = Option.none := by
    intro wc hwc fuel r
    exact selectWords_stuck wc hwc fuel [] [] r List.nodup_nil
      (by intro i hi; cases hi) (by simp)
  refine ⟨rfl, hstuck, ?_, ?_⟩
  · intro p hp fuel r
    unfold generateRandomPassphrase
    rw [hstuck p.wordCount hp fuel r]
  · intro wc h
    obtain ⟨out, hout⟩ := selectWords_range wc [] [] 0 (by omega)
      (by intro i hi; cases hi)
    exact ⟨wc + 1, List.range' 0 wc, out, by simpa using hout⟩

theorem C10_passphrase_termination_witness :
    selectWords 5 113 [] [] [] = Option.none :=
  C10_passphrase_termination.2.1 113 (by decide) 5 []

end ZCloudPass
